import Mathlib

/-!
Shallow embedding of the Othello rules engine and turn-management core
(src/script.js, the consolidated variant with player manager, history and
undo/redo; lines 365-1328).  JavaScript arrays are modelled as lists with
JS-style indexing (`undefined` becomes `none`); code paths that would throw
a TypeError are modelled in the `Except Unit` monad.  DOM rendering calls
are modelled as emitted notifications.
-/

namespace Othello

instance {ε α : Type} [DecidableEq ε] [DecidableEq α] : DecidableEq (Except ε α) := fun x y =>
  match x, y with
  | Except.error a, Except.error b =>
    if h : a = b then isTrue (by rw [h]) else isFalse (fun hc => h (Except.error.inj hc))
  | Except.error _, Except.ok _ => isFalse (fun hc => Except.noConfusion hc)
  | Except.ok _, Except.error _ => isFalse (fun hc => Except.noConfusion hc)
  | Except.ok a, Except.ok b =>
    if h : a = b then isTrue (by rw [h]) else isFalse (fun hc => h (Except.ok.inj hc))

/-- Piece: the JS union type of the strings black and white. -/
inductive Piece where
  | black
  | white
deriving DecidableEq, Repr

/-- CellState: the JS union type of empty, black and white. -/
inductive CellState where
  | empty
  | black
  | white
deriving DecidableEq, Repr

/-- Embedding of a Piece value into a CellState value (in JS both are the
same string). -/
def Piece.toCell : Piece → CellState
  | Piece.black => CellState.black
  | Piece.white => CellState.white

/-- Source (checkDirection, line 809): the ternary
pieceToPlace === black ? white : black. -/
def opponent : Piece → Piece
  | Piece.black => Piece.white
  | Piece.white => Piece.black

/-- Coordinate {r, c}; JS numbers, integer-valued everywhere in this program. -/
structure Coordinate where
  r : Int
  c : Int
deriving DecidableEq, Repr

/-- BoardData: CellState[][] in the source. -/
abbrev BoardData := List (List CellState)

/-- JS array read arr[i]: some element when 0 <= i < length, otherwise
undefined (none). -/
def listGet? (l : List α) (i : Int) : Option α :=
  if 0 ≤ i then l[i.toNat]? else none

/-- Source (getCell, lines 425-427): boardData[r][c].  When boardData[r] is
undefined (row index out of range) the subsequent [c] access throws a
TypeError, modelled as the error case. -/
def getCell (b : BoardData) (coord : Coordinate) : Except Unit (Option CellState) :=
  match listGet? b coord.r with
  | none => Except.error ()
  | some row => Except.ok (listGet? row coord.c)

/-- Convenience read used by the specification-side statements: the cell
content when both indices are in range, none otherwise. -/
def cellGet (b : BoardData) (coord : Coordinate) : Option CellState :=
  (listGet? b coord.r).bind (fun row => listGet? row coord.c)

/-- Source (setCell, lines 429-431): boardData[r][c] = cellState.  All call
sites pass coordinates previously validated to be on the board; out-of-range
writes are modelled as leaving the grid unchanged. -/
def setCell (b : BoardData) (coord : Coordinate) (v : CellState) : BoardData :=
  match listGet? b coord.r with
  | none => b
  | some row => if 0 ≤ coord.c then b.set coord.r.toNat (row.set coord.c.toNat v) else b

/-- Source (flipCells, lines 433-437): set every given coordinate to the
piece, in list order. -/
def flipCells (b : BoardData) (cellsToFlip : List Coordinate) (piece : Piece) : BoardData :=
  cellsToFlip.foldl (fun acc coord => setCell acc coord piece.toCell) b

/-- Source (loadData, lines 444-446): replace the grid with a row-wise copy
of the given data; copying is the identity on immutable values. -/
def loadData (newData : BoardData) : BoardData :=
  newData.map (fun row => row)

/-- Source (score getter, lines 448-457): fold over the flattened grid
counting black and white cells, returned as (b, w). -/
def score (b : BoardData) : Nat × Nat :=
  b.flatten.foldl
    (fun acc cur =>
      let acc1 := if cur = CellState.black then (acc.1 + 1, acc.2) else acc
      if cur = CellState.white then (acc1.1, acc1.2 + 1) else acc1)
    (0, 0)

/-- Source (INITIAL_PIECES, lines 381-386). -/
def INITIAL_PIECES : List (Coordinate × Piece) :=
  [(⟨3, 3⟩, Piece.white), (⟨3, 4⟩, Piece.black), (⟨4, 3⟩, Piece.black), (⟨4, 4⟩, Piece.white)]

/-- Source (init, lines 412-423): an 8x8 grid of empty cells with the given
initial pieces written in. -/
def boardInit (initialPieces : List (Coordinate × Piece)) : BoardData :=
  initialPieces.foldl (fun b cp => setCell b cp.1 cp.2.toCell)
    (List.replicate 8 (List.replicate 8 CellState.empty))

/-- Board produced by init() with the default initial pieces. -/
def initialBoardData : BoardData :=
  boardInit INITIAL_PIECES

/-- Well-formedness maintained by the board controller: an 8x8 grid. -/
def BoardWF (b : BoardData) : Prop :=
  b.length = 8 ∧ ∀ row ∈ b, row.length = 8

instance (b : BoardData) : Decidable (BoardWF b) := by
  unfold BoardWF
  exact instDecidableAnd

/-- HistorySnapshot {player, boardData} as stored by the history controller. -/
structure PlayerAndBoardData where
  player : Piece
  boardData : BoardData
deriving DecidableEq, Repr

/-- Source (isData, lines 487-490): negative turns have no data, otherwise a
presence check against the length. -/
def isData (history : List PlayerAndBoardData) (turn : Int) : Bool :=
  if turn < 0 then false else decide ((history.length : Int) > turn)

/-- Source (getData, lines 492-495): the stored pair, or null when out of
range. -/
def getData (history : List PlayerAndBoardData) (turn : Int) : Option PlayerAndBoardData :=
  if isData history turn then listGet? history turn else none

/-- JS Array.prototype.slice(0, fin): a negative end counts from the end of
the array, and the result never extends past the array. -/
def jsSliceZero (l : List α) (fin : Int) : List α :=
  if fin < 0 then l.take ((l.length : Int) + fin).toNat else l.take fin.toNat

/-- Source (pushData, lines 497-504): truncate with slice(0, turn) when the
log already reaches past the turn, then append the new pair. -/
def pushData (history : List PlayerAndBoardData) (turn : Int) (player : Piece)
    (boardData : BoardData) : List PlayerAndBoardData :=
  let h := if (history.length : Int) > turn then jsSliceZero history turn else history
  h ++ [⟨player, boardData⟩]

/-- Source (decrement, lines 539-541): guarded decrement, a no-op at zero. -/
def decrementCount (count : Nat) : Nat :=
  if 0 < count then count - 1 else count

/-- Source (createPlayerManager, line 566): the default player order. -/
def playerOrder : List Piece :=
  [Piece.black, Piece.white]

/-- JS Array.prototype.indexOf: position of the element, -1 when absent. -/
def jsIndexOf (l : List Piece) (p : Piece) : Int :=
  match l.indexOf? p with
  | some i => (i : Int)
  | none => -1

/-- Combined mutable state of the four controllers: board data, history log,
turn counter and the player-manager skip count. -/
structure GameState where
  boardData : BoardData
  history : List PlayerAndBoardData
  count : Nat
  skipCount : Nat
deriving DecidableEq, Repr

/-- Source (currentPlayer getter, lines 590-593):
playerOrder[(turnCounter.current + skipCount) % orderLength]. -/
def currentPlayerS (st : GameState) : Piece :=
  playerOrder.get ⟨(st.count + st.skipCount) % playerOrder.length, Nat.mod_lt _ (by decide)⟩

/-- Source (nextPlayer getter, lines 595-598):
playerOrder[(turnCounter.current + 1 + skipCount) % orderLength]. -/
def nextPlayerS (st : GameState) : Piece :=
  playerOrder.get ⟨(st.count + 1 + st.skipCount) % playerOrder.length, Nat.mod_lt _ (by decide)⟩

/-- Source (setPlayer, lines 579-588): recompute the skip count so that the
current-player formula yields the requested player at the current turn. -/
def setPlayerS (st : GameState) (player : Piece) : GameState :=
  let index := jsIndexOf playerOrder player
  if index = -1 then st
  else
    let remainder : Int := (st.count : Int) % (playerOrder.length : Int)
    { st with skipCount := ((index - remainder + (playerOrder.length : Int)) % (playerOrder.length : Int)).toNat }

/-- Direction {dr, dc} used by the move rules. -/
structure Direction where
  dr : Int
  dc : Int
deriving DecidableEq, Repr

/-- Source (DIRECTIONS, lines 783-792): the 8 compass directions. -/
def DIRECTIONS : List Direction :=
  [⟨-1, -1⟩, ⟨-1, 0⟩, ⟨-1, 1⟩, ⟨0, -1⟩, ⟨0, 1⟩, ⟨1, -1⟩, ⟨1, 0⟩, ⟨1, 1⟩]

/-- Source (isOnBoard, line 799). -/
def isOnBoard (coord : Coordinate) : Bool :=
  decide (0 ≤ coord.r) && decide (coord.r < 8) && decide (0 ≤ coord.c) && decide (coord.c < 8)

/-- Cell reached after dist steps from the start in direction d
(startCoord.r + dr * dist, startCoord.c + dc * dist). -/
def stepCoord (startCoord : Coordinate) (d : Direction) (dist : Nat) : Coordinate :=
  ⟨startCoord.r + d.dr * (dist : Int), startCoord.c + d.dc * (dist : Int)⟩

/-- Source (checkDirection loop body, lines 813-833), one iteration per unit
of fuel, with dist the current scanning distance and acc the candidates
collected so far.  From any on-board start the JS loop exits within 8
iterations (the board is 8 wide and every direction is nonzero), so fuel 8
makes the embedding exact; the fuel-exhausted case is unreachable there. -/
def checkDirectionGo (b : BoardData) (pieceToPlace : Piece) (startCoord : Coordinate)
    (d : Direction) : Nat → Nat → List Coordinate → Except Unit (List Coordinate)
  | _, 0, _ => Except.ok []
  | dist, fuel + 1, acc =>
    if isOnBoard (stepCoord startCoord d dist) = false then Except.ok []
    else
      match getCell b (stepCoord startCoord d dist) with
      | Except.error e => Except.error e
      | Except.ok checkingCellState =>
        if checkingCellState = some (opponent pieceToPlace).toCell then
          checkDirectionGo b pieceToPlace startCoord d (dist + 1) fuel
            (acc ++ [stepCoord startCoord d dist])
        else if checkingCellState = some pieceToPlace.toCell then Except.ok acc
        else Except.ok []

/-- Source (checkDirection, lines 808-837): scan one direction starting at
distance 1 with an empty candidate list. -/
def checkDirection (b : BoardData) (startCoord : Coordinate) (pieceToPlace : Piece)
    (d : Direction) : Except Unit (List Coordinate) :=
  checkDirectionGo b pieceToPlace startCoord d 1 8 []

/-- Source (getFlipCandidates forEach, lines 850-853): concatenate the
per-direction candidates in direction order. -/
def gatherDirections (b : BoardData) (coord : Coordinate) (pieceToPlace : Piece) :
    List Direction → Except Unit (List Coordinate)
  | [] => Except.ok []
  | d :: ds =>
    match checkDirection b coord pieceToPlace d with
    | Except.error e => Except.error e
    | Except.ok l =>
      match gatherDirections b coord pieceToPlace ds with
      | Except.error e => Except.error e
      | Except.ok ls => Except.ok (l ++ ls)

/-- Source (getFlipCandidates, lines 846-856): null when the target cell is
not empty, otherwise the union over the 8 directions, null when empty. -/
def getFlipCandidates (b : BoardData) (coord : Coordinate) (pieceToPlace : Piece) :
    Except Unit (Option (List Coordinate)) :=
  match getCell b coord with
  | Except.error e => Except.error e
  | Except.ok st =>
    if st = some CellState.empty then
      match gatherDirections b coord pieceToPlace DIRECTIONS with
      | Except.error e => Except.error e
      | Except.ok allCandidates =>
        Except.ok (if allCandidates = [] then none else some allCandidates)
    else Except.ok none

/-- Source (allCoords, line 858): row-major list of the 64 coordinates. -/
def allCoords : List Coordinate :=
  ((List.range 8).map (fun r => (List.range 8).map (fun c => Coordinate.mk r c))).flatten

/-- Source (getValidMoves filter, line 867), with the JS truthiness test:
null is excluded, any array is kept. -/
def getValidMovesGo (b : BoardData) (pieceToPlace : Piece) :
    List Coordinate → Except Unit (List Coordinate)
  | [] => Except.ok []
  | coord :: rest =>
    match getFlipCandidates b coord pieceToPlace with
    | Except.error e => Except.error e
    | Except.ok fc =>
      match getValidMovesGo b pieceToPlace rest with
      | Except.error e => Except.error e
      | Except.ok vs => Except.ok (if fc.isSome then coord :: vs else vs)

/-- Source (getValidMoves, lines 866-869). -/
def getValidMoves (b : BoardData) (pieceToPlace : Piece) : Except Unit (List Coordinate) :=
  getValidMovesGo b pieceToPlace allCoords

/-- Rendering calls the progression controller emits, in call order. -/
inductive Notification where
  | render
  | renderSkip (player : Piece)
  | renderResult
deriving DecidableEq, Repr

/-- Source (decideProgressionKey return values, lines 1063-1077). -/
inductive ProgressionKey where
  | usual
  | skip
  | gameOver
deriving DecidableEq, Repr

/-- Source (decideProgressionKey, lines 1063-1077): usual when the next
player can move, otherwise skip when the current player can, otherwise game
over. -/
def decideProgressionKey (st : GameState) : Except Unit ProgressionKey :=
  match getValidMoves st.boardData (nextPlayerS st) with
  | Except.error e => Except.error e
  | Except.ok validMovesNextPL =>
    if validMovesNextPL.length > 0 then Except.ok ProgressionKey.usual
    else
      match getValidMoves st.boardData (currentPlayerS st) with
      | Except.error e => Except.error e
      | Except.ok validMovesCurrentPL =>
        if validMovesCurrentPL.length > 0 then Except.ok ProgressionKey.skip
        else Except.ok ProgressionKey.gameOver

/-- Source (proceedUsualTurn, lines 1079-1084): increment the turn counter,
push the current player and a snapshot of the board at the new turn index,
then render. -/
def proceedUsualTurn (st : GameState) : GameState × List Notification :=
  let st1 := { st with count := st.count + 1 }
  let st2 := { st1 with
    history := pushData st1.history (st1.count : Int) (currentPlayerS st1) st1.boardData }
  (st2, [Notification.render])

/-- Source (progressionKeyMap dispatch, lines 1086-1107): the usual, skip and
game-over continuations.  The skip path renders the pass for the next player,
bumps the skip count (playerM.skip, lines 575-577) and then proceeds as a
usual turn; the game-over path additionally renders the result.  The bot
hook at line 1112 is not modelled (no bot configured). -/
def manageGameProgression (st : GameState) : Except Unit (GameState × List Notification) :=
  match decideProgressionKey st with
  | Except.error e => Except.error e
  | Except.ok ProgressionKey.usual => Except.ok (proceedUsualTurn st)
  | Except.ok ProgressionKey.skip =>
    let skippedPlayer := nextPlayerS st
    let st1 := { st with skipCount := st.skipCount + 1 }
    let res := proceedUsualTurn st1
    Except.ok (res.1, Notification.renderSkip skippedPlayer :: res.2)
  | Except.ok ProgressionKey.gameOver =>
    let st1 := { st with count := st.count + 1 }
    let st2 := { st1 with
      history := pushData st1.history (st1.count : Int) (currentPlayerS st1) st1.boardData }
    Except.ok (st2, [Notification.render, Notification.renderResult])

/-- Source (handleMove, lines 1044-1057): compute the flip candidates for the
current player unless a precomputed list is supplied; on null log an error
and return with no state change, otherwise flip, place and run the game
progression. -/
def handleMove (st : GameState) (coord : Coordinate) (cellsToFlip : Option (List Coordinate)) :
    Except Unit (GameState × List Notification) :=
  let currentPlayer := currentPlayerS st
  let flipsE : Except Unit (Option (List Coordinate)) :=
    match cellsToFlip with
    | some l => Except.ok (some l)
    | none => getFlipCandidates st.boardData coord currentPlayer
  match flipsE with
  | Except.error e => Except.error e
  | Except.ok none => Except.ok (st, [])
  | Except.ok (some cells) =>
    let b1 := flipCells st.boardData cells currentPlayer
    let b2 := setCell b1 coord currentPlayer.toCell
    manageGameProgression { st with boardData := b2 }

/-- Source (performUndo, lines 1163-1176): decrement, try to load the data at
the new turn; roll the counter back on failure, otherwise load the board and
resynchronize the player. -/
def performUndo (st : GameState) : GameState × Bool :=
  let st1 := { st with count := decrementCount st.count }
  match getData st1.history (st1.count : Int) with
  | none => ({ st1 with count := st1.count + 1 }, false)
  | some dataToLoad =>
    let st2 := { st1 with boardData := loadData dataToLoad.boardData }
    (setPlayerS st2 dataToLoad.player, true)

/-- Source (performRedo, lines 1191-1204): increment, try to load the data at
the new turn; roll the counter back on failure, otherwise load the board and
resynchronize the player. -/
def performRedo (st : GameState) : GameState × Bool :=
  let st1 := { st with count := st.count + 1 }
  match getData st1.history (st1.count : Int) with
  | none => ({ st1 with count := decrementCount st1.count }, false)
  | some dataToLoad =>
    let st2 := { st1 with boardData := loadData dataToLoad.boardData }
    (setPlayerS st2 dataToLoad.player, true)

/-- Source (initGame, lines 1227-1237): reset every controller and store the
initial snapshot at history index 0. -/
def initState : GameState :=
  let st0 : GameState :=
    { boardData := boardInit INITIAL_PIECES, history := [], count := 0, skipCount := 0 }
  { st0 with
    history := pushData st0.history (st0.count : Int) (currentPlayerS st0) st0.boardData }

/-- One legal move: the spec calls a submission legal when getFlipCandidates
is non-null; the resulting state is the one handleMove produces. -/
def legalStep (st : GameState) (coord : Coordinate) : Option GameState :=
  match getFlipCandidates st.boardData coord (currentPlayerS st) with
  | Except.ok (some _) =>
    match handleMove st coord none with
    | Except.ok res => some res.1
    | Except.error _ => none
  | _ => none

/-- A sequence of legal moves played from a starting state. -/
def playMoves (st : GameState) : List Coordinate → Option GameState
  | [] => some st
  | coord :: rest =>
    match legalStep st coord with
    | none => none
    | some st1 => playMoves st1 rest

/-! Specification-side description of the flip rule (written from the words
of the spec, to be compared with the code-side functions above): a direction
contributes exactly the cells of a maximal non-empty run of the opponent
color starting immediately adjacent and followed, within bounds, by a cell
of the placing player. -/

/-- Cells at distance 1..k from the start in direction d. -/
def runCells (coord : Coordinate) (d : Direction) (k : Nat) : List Coordinate :=
  (List.range k).map (fun i => stepCoord coord d (i + 1))

/-- Spec wording: starting immediately adjacent there is a non-empty run of
exactly k opponent cells, immediately followed by a cell of the placing
player, all within board bounds (cellGet is some only on the board). -/
def specRun (b : BoardData) (p : Piece) (coord : Coordinate) (d : Direction) (k : Nat) : Prop :=
  1 ≤ k ∧ (∀ i ∈ List.range k, cellGet b (stepCoord coord d (i + 1)) = some (opponent p).toCell)
    ∧ cellGet b (stepCoord coord d (k + 1)) = some p.toCell

instance (b : BoardData) (p : Piece) (coord : Coordinate) (d : Direction) (k : Nat) :
    Decidable (specRun b p coord d k) := by
  unfold specRun
  exact instDecidableAnd

/-- Spec wording, per direction: the run cells when a valid run exists,
nothing otherwise.  A run length is at most 8 on an 8-wide board, so
searching 0..8 is exhaustive. -/
def specDirFlips (b : BoardData) (p : Piece) (coord : Coordinate) (d : Direction) :
    List Coordinate :=
  match (List.range 9).find? (fun k => decide (specRun b p coord d k)) with
  | some k => runCells coord d k
  | none => []

/-- Concrete scenario: black at (0,0) and (2,0), white at (0,1) and (2,1).
After black plays (0,2), white has no legal move while black still has one,
so resolving that move takes the skip path. -/
def skipScenarioBoard : BoardData :=
  boardInit
    [(⟨0, 0⟩, Piece.black), (⟨0, 1⟩, Piece.white), (⟨2, 0⟩, Piece.black), (⟨2, 1⟩, Piece.white)]

/-- Game state holding the skip-scenario board with black to move at turn 0. -/
def skipScenarioState : GameState :=
  { boardData := skipScenarioBoard,
    history := [⟨Piece.black, skipScenarioBoard⟩],
    count := 0, skipCount := 0 }

/-- Board reached from the initial position after black plays (2,3),
flipping (3,3): black at (2,3), (3,3), (3,4), (4,3) and white at (4,4). -/
def boardAfterFirstMove : BoardData :=
  [List.replicate 8 CellState.empty,
   List.replicate 8 CellState.empty,
   [CellState.empty, CellState.empty, CellState.empty, CellState.black,
    CellState.empty, CellState.empty, CellState.empty, CellState.empty],
   [CellState.empty, CellState.empty, CellState.empty, CellState.black,
    CellState.black, CellState.empty, CellState.empty, CellState.empty],
   [CellState.empty, CellState.empty, CellState.empty, CellState.black,
    CellState.white, CellState.empty, CellState.empty, CellState.empty],
   List.replicate 8 CellState.empty,
   List.replicate 8 CellState.empty,
   List.replicate 8 CellState.empty]

/-- Full game state after black plays (2,3) from the initial position. -/
def stateAfterFirstMove : GameState :=
  { boardData := boardAfterFirstMove,
    history := [⟨Piece.black, initialBoardData⟩, ⟨Piece.white, boardAfterFirstMove⟩],
    count := 1, skipCount := 0 }

/-! Basic lemmas about indexing and well-formed boards. -/

theorem listGet?_eq_some {α} {l : List α} {i : Int} {a : α} :
    listGet? l i = some a ↔ 0 ≤ i ∧ ∃ h : i.toNat < l.length, l[i.toNat] = a := by
  unfold listGet?
  split
  · next h0 => rw [List.getElem?_eq_some]; simp [h0]
  · next h0 => simp [h0]

theorem listGet?_isSome {α} {l : List α} {i : Int} :
    (listGet? l i).isSome = true ↔ 0 ≤ i ∧ i < (l.length : Int) := by
  unfold listGet?
  split
  · next h0 =>
    rw [Option.isSome_iff_exists]
    constructor
    · rintro ⟨a, ha⟩
      rcases List.getElem?_eq_some.mp ha with ⟨h, -⟩
      exact ⟨h0, by omega⟩
    · rintro ⟨-, hlt⟩
      have h : i.toNat < l.length := by omega
      exact ⟨l[i.toNat], List.getElem?_eq_some.mpr ⟨h, rfl⟩⟩
  · next h0 =>
    simp only [Option.isSome_none, Bool.false_eq_true, false_iff]
    intro hcon
    exact h0 hcon.1

theorem listGet?_mem {α} {l : List α} {i : Int} {a : α} (h : listGet? l i = some a) : a ∈ l := by
  rcases listGet?_eq_some.mp h with ⟨h0, hlt, rfl⟩
  exact List.getElem_mem hlt

theorem isOnBoard_iff {coord : Coordinate} :
    isOnBoard coord = true ↔ 0 ≤ coord.r ∧ coord.r < 8 ∧ 0 ≤ coord.c ∧ coord.c < 8 := by
  simp [isOnBoard, and_assoc]

theorem isOnBoard_eq_false_iff {coord : Coordinate} :
    isOnBoard coord = false ↔ ¬(0 ≤ coord.r ∧ coord.r < 8 ∧ 0 ≤ coord.c ∧ coord.c < 8) := by
  rw [← isOnBoard_iff]
  cases h : isOnBoard coord <;> simp

theorem onBoard_of_cellGet {b : BoardData} {coord : Coordinate} {s : CellState}
    (hWF : BoardWF b) (h : cellGet b coord = some s) : isOnBoard coord = true := by
  unfold cellGet at h
  rcases Option.bind_eq_some.mp h with ⟨row, hrow, hc⟩
  have hrowSome : 0 ≤ coord.r ∧ coord.r < (b.length : Int) :=
    listGet?_isSome.mp (by rw [hrow]; rfl)
  have hcSome : 0 ≤ coord.c ∧ coord.c < (row.length : Int) :=
    listGet?_isSome.mp (by rw [hc]; rfl)
  have hrl : row.length = 8 := hWF.2 row (listGet?_mem hrow)
  rw [isOnBoard_iff]
  rw [hWF.1] at hrowSome
  rw [hrl] at hcSome
  exact ⟨hrowSome.1, by exact_mod_cast hrowSome.2, hcSome.1, by exact_mod_cast hcSome.2⟩

theorem cellGet_isSome_of_onBoard {b : BoardData} {coord : Coordinate}
    (hWF : BoardWF b) (hOn : isOnBoard coord = true) : (cellGet b coord).isSome = true := by
  rcases isOnBoard_iff.mp hOn with ⟨hr0, hr8, hc0, hc8⟩
  unfold cellGet
  have hrow : (listGet? b coord.r).isSome = true :=
    listGet?_isSome.mpr ⟨hr0, by rw [hWF.1]; exact_mod_cast hr8⟩
  rcases Option.isSome_iff_exists.mp hrow with ⟨row, hrowEq⟩
  rw [hrowEq]
  have hrl : row.length = 8 := hWF.2 row (listGet?_mem hrowEq)
  exact listGet?_isSome.mpr ⟨hc0, by rw [hrl]; exact_mod_cast hc8⟩

theorem getCell_eq_ok_cellGet {b : BoardData} {coord : Coordinate}
    (hWF : BoardWF b) (hOn : isOnBoard coord = true) :
    getCell b coord = Except.ok (cellGet b coord) := by
  rcases isOnBoard_iff.mp hOn with ⟨hr0, hr8, _, _⟩
  have hrow : (listGet? b coord.r).isSome = true :=
    listGet?_isSome.mpr ⟨hr0, by rw [hWF.1]; exact_mod_cast hr8⟩
  rcases Option.isSome_iff_exists.mp hrow with ⟨row, hrowEq⟩
  unfold getCell cellGet
  rw [hrowEq]
  rfl

/-! Lemmas about the direction scan. -/

theorem toCell_injective {p q : Piece} (h : p.toCell = q.toCell) : p = q := by
  cases p <;> cases q <;> simp_all [Piece.toCell]

theorem opponent_toCell_ne {p : Piece} : (opponent p).toCell ≠ p.toCell := by
  cases p <;> simp [opponent, Piece.toCell]

theorem toCell_ne_empty {p : Piece} : p.toCell ≠ CellState.empty := by
  cases p <;> simp [Piece.toCell]

theorem specRun_unique {b : BoardData} {p : Piece} {coord : Coordinate} {d : Direction}
    {k k' : Nat} (h : specRun b p coord d k) (h' : specRun b p coord d k') : k = k' := by
  rcases h with ⟨hk1, hrun, hown⟩
  rcases h' with ⟨hk1', hrun', hown'⟩
  by_contra hne
  rcases Nat.lt_or_ge k k' with hlt | hge
  · have : cellGet b (stepCoord coord d (k + 1)) = some (opponent p).toCell :=
      hrun' k (List.mem_range.mpr hlt)
    rw [hown] at this
    exact opponent_toCell_ne (Option.some.inj this).symm
  · have hlt' : k' < k := lt_of_le_of_ne hge (fun h => hne h.symm)
    have : cellGet b (stepCoord coord d (k' + 1)) = some (opponent p).toCell :=
      hrun k' (List.mem_range.mpr hlt')
    rw [hown'] at this
    exact opponent_toCell_ne (Option.some.inj this).symm

theorem stepCoord_r {coord : Coordinate} {d : Direction} {m : Nat} :
    (stepCoord coord d m).r = coord.r + d.dr * (m : Int) := rfl

theorem stepCoord_c {coord : Coordinate} {d : Direction} {m : Nat} :
    (stepCoord coord d m).c = coord.c + d.dc * (m : Int) := rfl

theorem step_off_of_big {coord : Coordinate} {d : Direction} {m : Nat}
    (hd : d ∈ DIRECTIONS) (hOn : isOnBoard coord = true) (hm : 8 ≤ m) :
    isOnBoard (stepCoord coord d m) = false := by
  rcases isOnBoard_iff.mp hOn with ⟨hr0, hr8, hc0, hc8⟩
  rw [isOnBoard_eq_false_iff]
  have hm' : (8 : Int) ≤ (m : Int) := by exact_mod_cast hm
  simp only [DIRECTIONS, List.mem_cons, List.not_mem_nil, or_false] at hd
  rcases hd with rfl | rfl | rfl | rfl | rfl | rfl | rfl | rfl <;>
    simp only [stepCoord_r, stepCoord_c] <;> intro hcon <;> omega

theorem specRun_bound {b : BoardData} {p : Piece} {coord : Coordinate} {d : Direction} {k : Nat}
    (hWF : BoardWF b) (hd : d ∈ DIRECTIONS) (hOn : isOnBoard coord = true)
    (h : specRun b p coord d k) : k + 1 < 8 := by
  by_contra hge
  have h8 : 8 ≤ k + 1 := by omega
  have hoff : isOnBoard (stepCoord coord d (k + 1)) = false := step_off_of_big hd hOn h8
  have hsome : isOnBoard (stepCoord coord d (k + 1)) = true := onBoard_of_cellGet hWF h.2.2
  rw [hoff] at hsome
  exact Bool.false_ne_true hsome

theorem runCells_zero {coord : Coordinate} {d : Direction} : runCells coord d 0 = [] := rfl

theorem runCells_succ {coord : Coordinate} {d : Direction} {m : Nat} :
    runCells coord d (m + 1) = runCells coord d m ++ [stepCoord coord d (m + 1)] := by
  unfold runCells
  rw [List.range_succ, List.map_append]
  rfl

theorem checkDirectionGo_of_specRun {b : BoardData} {p : Piece} {coord : Coordinate}
    {d : Direction} {k : Nat} (hWF : BoardWF b) (hd : d ∈ DIRECTIONS)
    (hOn : isOnBoard coord = true) (hk : specRun b p coord d k) :
    ∀ fuel dist, 1 ≤ dist → dist + fuel = 9 → dist ≤ k + 1 →
      checkDirectionGo b p coord d dist fuel (runCells coord d (dist - 1)) =
        Except.ok (runCells coord d k) := by
  have hbound : k + 1 < 8 := specRun_bound hWF hd hOn hk
  intro fuel
  induction fuel with
  | zero => intro dist h1 h9 hle; omega
  | succ n ih =>
    intro dist h1 h9 hle
    rcases Nat.lt_or_ge dist (k + 1) with hdlt | hdge
    · -- still inside the opponent run
      have hdk : dist - 1 < k := by omega
      have hd1 : dist - 1 + 1 = dist := by omega
      have hcell : cellGet b (stepCoord coord d dist) = some (opponent p).toCell := by
        have hstep := hk.2.1 (dist - 1) (List.mem_range.mpr hdk)
        rwa [hd1] at hstep
      have hstepOn : isOnBoard (stepCoord coord d dist) = true := onBoard_of_cellGet hWF hcell
      rw [checkDirectionGo, if_neg (by simp [hstepOn]),
        getCell_eq_ok_cellGet hWF hstepOn, hcell]
      have hacc : runCells coord d (dist - 1) ++ [stepCoord coord d dist] =
          runCells coord d ((dist + 1) - 1) := by
        have hd2 : (dist + 1) - 1 = (dist - 1) + 1 := by omega
        rw [hd2, runCells_succ, hd1]
      simp only [if_true]
      rw [hacc]
      exact ih (dist + 1) (by omega) (by omega) (by omega)
    · -- dist = k + 1: the terminating own-color cell
      have hde : dist = k + 1 := by omega
      subst hde
      have hcell : cellGet b (stepCoord coord d (k + 1)) = some p.toCell := hk.2.2
      have hstepOn : isOnBoard (stepCoord coord d (k + 1)) = true := onBoard_of_cellGet hWF hcell
      have hne : ¬ (some p.toCell = some (opponent p).toCell) := by
        intro hcon
        exact opponent_toCell_ne (Option.some.inj hcon).symm
      rw [checkDirectionGo, if_neg (by simp [hstepOn]),
        getCell_eq_ok_cellGet hWF hstepOn, hcell]
      simp only [if_true]
      rw [if_neg hne]
      rfl

theorem checkDirectionGo_of_noRun {b : BoardData} {p : Piece} {coord : Coordinate}
    {d : Direction} (hWF : BoardWF b) (hd : d ∈ DIRECTIONS) (hOn : isOnBoard coord = true)
    (hnone : ∀ k, ¬ specRun b p coord d k) :
    ∀ fuel dist, 1 ≤ dist → dist + fuel = 9 →
      (∀ i ∈ List.range (dist - 1), cellGet b (stepCoord coord d (i + 1)) =
        some (opponent p).toCell) →
      checkDirectionGo b p coord d dist fuel (runCells coord d (dist - 1)) = Except.ok [] := by
  intro fuel
  induction fuel with
  | zero =>
    intro dist h1 h9 hpre
    have hd9 : dist = 9 := by omega
    subst hd9
    have hcell : cellGet b (stepCoord coord d 8) = some (opponent p).toCell := by
      have := hpre 7 (List.mem_range.mpr (by omega))
      simpa using this
    have hstepOn : isOnBoard (stepCoord coord d 8) = true := onBoard_of_cellGet hWF hcell
    have hoff : isOnBoard (stepCoord coord d 8) = false := step_off_of_big hd hOn (by omega)
    rw [hoff] at hstepOn
    exact absurd hstepOn Bool.false_ne_true
  | succ n ih =>
    intro dist h1 h9 hpre
    cases hstep : isOnBoard (stepCoord coord d dist) with
    | false => rw [checkDirectionGo, if_pos hstep]
    | true =>
      have hsome : (cellGet b (stepCoord coord d dist)).isSome = true :=
        cellGet_isSome_of_onBoard hWF hstep
      rcases Option.isSome_iff_exists.mp hsome with ⟨s, hs⟩
      rw [checkDirectionGo, if_neg (by simp [hstep]), getCell_eq_ok_cellGet hWF hstep, hs]
      by_cases hopp : s = (opponent p).toCell
      · subst hopp
        simp only [if_true]
        have hacc : runCells coord d (dist - 1) ++ [stepCoord coord d dist] =
            runCells coord d ((dist + 1) - 1) := by
          have hd1 : dist - 1 + 1 = dist := by omega
          have hd2 : (dist + 1) - 1 = (dist - 1) + 1 := by omega
          rw [hd2, runCells_succ, hd1]
        rw [hacc]
        refine ih (dist + 1) (by omega) (by omega) ?_
        intro i hi
        rcases Nat.lt_or_ge i (dist - 1) with hilt | hige
        · exact hpre i (List.mem_range.mpr hilt)
        · have hie : i = dist - 1 := by
            have := List.mem_range.mp hi
            omega
          subst hie
          have hd1 : dist - 1 + 1 = dist := by omega
          rw [hd1]
          exact hs
      · have hoppF : ¬ (some s = some (opponent p).toCell) := by
          intro hcon
          exact hopp (Option.some.inj hcon)
        by_cases hown : s = p.toCell
        · subst hown
          rcases Nat.lt_or_ge dist 2 with hd1 | hd2
          · -- dist = 1: the JS code returns the (empty) accumulator
            have hde : dist = 1 := by omega
            subst hde
            simp only [if_true]
            rw [if_neg hoppF]
            rfl
          · -- dist >= 2: a valid run of length dist - 1 exists, contradiction
            exfalso
            refine hnone (dist - 1) ⟨by omega, ?_, ?_⟩
            · intro i hi
              exact hpre i hi
            · have hd1 : dist - 1 + 1 = dist := by omega
              rw [hd1]
              exact hs
        · have hownF : ¬ (some s = some p.toCell) := by
            intro hcon
            exact hown (Option.some.inj hcon)
          simp only []
          rw [if_neg hoppF, if_neg hownF]

theorem specDirFlips_of_run {b : BoardData} {p : Piece} {coord : Coordinate} {d : Direction}
    {k : Nat} (hk : specRun b p coord d k) (hk9 : k < 9) :
    specDirFlips b p coord d = runCells coord d k := by
  unfold specDirFlips
  cases hfind : (List.range 9).find? (fun k => decide (specRun b p coord d k)) with
  | none =>
    exfalso
    have := List.find?_eq_none.mp hfind k (List.mem_range.mpr hk9)
    simp only [decide_eq_true_eq] at this
    exact this hk
  | some k' =>
    have hk' : specRun b p coord d k' := by
      have := List.find?_some hfind
      simpa using this
    rw [specRun_unique hk' hk]

theorem specDirFlips_of_noRun {b : BoardData} {p : Piece} {coord : Coordinate} {d : Direction}
    (h : ∀ k, ¬ specRun b p coord d k) : specDirFlips b p coord d = [] := by
  unfold specDirFlips
  cases hfind : (List.range 9).find? (fun k => decide (specRun b p coord d k)) with
  | none => rfl
  | some k' =>
    exfalso
    have := List.find?_some hfind
    simp only [decide_eq_true_eq] at this
    exact h k' this

theorem checkDirection_eq_specDirFlips {b : BoardData} {p : Piece} {coord : Coordinate}
    {d : Direction} (hWF : BoardWF b) (hOn : isOnBoard coord = true) (hd : d ∈ DIRECTIONS) :
    checkDirection b coord p d = Except.ok (specDirFlips b p coord d) := by
  by_cases hex : ∃ k, specRun b p coord d k
  · rcases hex with ⟨k, hk⟩
    have hbound : k + 1 < 8 := specRun_bound hWF hd hOn hk
    rw [specDirFlips_of_run hk (by omega)]
    have := checkDirectionGo_of_specRun hWF hd hOn hk 8 1 (by omega) (by omega) (by omega)
    rw [runCells_zero] at this
    exact this
  · push_neg at hex
    rw [specDirFlips_of_noRun hex]
    have := checkDirectionGo_of_noRun hWF hd hOn hex 8 1 (by omega) (by omega)
      (by intro i hi; simp at hi)
    rw [runCells_zero] at this
    exact this

theorem gatherDirections_eq {b : BoardData} {p : Piece} {coord : Coordinate}
    (f : Direction → List Coordinate) :
    ∀ ds : List Direction, (∀ d ∈ ds, checkDirection b coord p d = Except.ok (f d)) →
      gatherDirections b coord p ds = Except.ok ((ds.map f).flatten) := by
  intro ds
  induction ds with
  | nil => intro _; rfl
  | cons d rest ih =>
    intro h
    rw [gatherDirections, h d (by simp), ih (fun x hx => h x (by simp [hx]))]
    simp

/-- On a well-formed board, for an on-board coordinate, gathering the 8
directions always succeeds and yields exactly the concatenation of the
specification-side per-direction flip sets. -/
theorem gatherDirections_ok {b : BoardData} {p : Piece} {coord : Coordinate}
    (hWF : BoardWF b) (hOn : isOnBoard coord = true) :
    gatherDirections b coord p DIRECTIONS =
      Except.ok ((DIRECTIONS.map (specDirFlips b p coord)).flatten) :=
  gatherDirections_eq (specDirFlips b p coord) DIRECTIONS
    (fun _ hd => checkDirection_eq_specDirFlips hWF hOn hd)

/-- Closed form of getFlipCandidates on a well-formed board at an on-board
coordinate. -/
theorem getFlipCandidates_eq {b : BoardData} {p : Piece} {coord : Coordinate}
    (hWF : BoardWF b) (hOn : isOnBoard coord = true) :
    getFlipCandidates b coord p =
      if cellGet b coord = some CellState.empty then
        Except.ok
          (if (DIRECTIONS.map (specDirFlips b p coord)).flatten = [] then none
           else some ((DIRECTIONS.map (specDirFlips b p coord)).flatten))
      else Except.ok none := by
  unfold getFlipCandidates
  rw [getCell_eq_ok_cellGet hWF hOn, gatherDirections_ok hWF hOn]

/-- C1: for every well-formed board, every empty on-board coordinate and
every piece color, each compass direction contributes exactly the cells of
the maximal non-empty run of the opponent color that starts immediately
adjacent and is followed, within bounds, by a cell of the placing player
(specRun); a direction with no such run contributes nothing; and
getFlipCandidates returns the union of the per-direction contributions
(null when that union is empty). -/
theorem c1_flip_candidates_are_directional_runs (b : BoardData) (p : Piece) (coord : Coordinate)
    (hWF : BoardWF b) (hempty : cellGet b coord = some CellState.empty) :
    (∀ d ∈ DIRECTIONS, ∀ k, specRun b p coord d k →
        checkDirection b coord p d = Except.ok (runCells coord d k))
    ∧ (∀ d ∈ DIRECTIONS, (∀ k, ¬ specRun b p coord d k) →
        checkDirection b coord p d = Except.ok [])
    ∧ getFlipCandidates b coord p =
        Except.ok
          (if (DIRECTIONS.map (specDirFlips b p coord)).flatten = [] then none
           else some ((DIRECTIONS.map (specDirFlips b p coord)).flatten)) := by
  have hOn : isOnBoard coord = true := onBoard_of_cellGet hWF hempty
  refine ⟨?_, ?_, ?_⟩
  · intro d hd k hk
    have hbound := specRun_bound hWF hd hOn hk
    rw [checkDirection_eq_specDirFlips hWF hOn hd, specDirFlips_of_run hk (by omega)]
  · intro d hd hnone
    rw [checkDirection_eq_specDirFlips hWF hOn hd, specDirFlips_of_noRun hnone]
  · rw [getFlipCandidates_eq hWF hOn, if_pos hempty]

/-- Witness for C1: the initial board with black to place at (2, 3). -/
theorem c1_flip_candidates_are_directional_runs_witness :
    BoardWF initialBoardData ∧ cellGet initialBoardData ⟨2, 3⟩ = some CellState.empty ∧
      ((∀ d ∈ DIRECTIONS, ∀ k, specRun initialBoardData Piece.black ⟨2, 3⟩ d k →
          checkDirection initialBoardData ⟨2, 3⟩ Piece.black d =
            Except.ok (runCells ⟨2, 3⟩ d k))
       ∧ (∀ d ∈ DIRECTIONS, (∀ k, ¬ specRun initialBoardData Piece.black ⟨2, 3⟩ d k) →
          checkDirection initialBoardData ⟨2, 3⟩ Piece.black d = Except.ok [])
       ∧ getFlipCandidates initialBoardData ⟨2, 3⟩ Piece.black =
          Except.ok
            (if (DIRECTIONS.map (specDirFlips initialBoardData Piece.black ⟨2, 3⟩)).flatten = []
             then none
             else some
               ((DIRECTIONS.map (specDirFlips initialBoardData Piece.black ⟨2, 3⟩)).flatten))) :=
  ⟨by decide, by decide,
    c1_flip_candidates_are_directional_runs initialBoardData Piece.black ⟨2, 3⟩
      (by decide) (by decide)⟩

/-- C2: for every well-formed board, on-board coordinate and piece color,
getFlipCandidates returns null when the target cell is not empty, returns
null when the union over the 8 directions is empty, and every non-null
result has length at least 1. -/
theorem c2_flip_candidates_null_or_nonempty (b : BoardData) (coord : Coordinate) (p : Piece)
    (hWF : BoardWF b) (hOn : isOnBoard coord = true) :
    (∀ s, cellGet b coord = some s → s ≠ CellState.empty →
        getFlipCandidates b coord p = Except.ok none)
    ∧ (gatherDirections b coord p DIRECTIONS = Except.ok [] →
        getFlipCandidates b coord p = Except.ok none)
    ∧ (∀ L, getFlipCandidates b coord p = Except.ok (some L) → 1 ≤ L.length) := by
  refine ⟨?_, ?_, ?_⟩
  · intro s hs hne
    rw [getFlipCandidates_eq hWF hOn, if_neg]
    rw [hs]
    intro hcon
    exact hne (Option.some.inj hcon)
  · intro hg
    rw [gatherDirections_ok hWF hOn] at hg
    have hall : (DIRECTIONS.map (specDirFlips b p coord)).flatten = [] := by
      simpa using hg
    rw [getFlipCandidates_eq hWF hOn, hall]
    split
    · simp
    · rfl
  · intro L hL
    rw [getFlipCandidates_eq hWF hOn] at hL
    split at hL
    · split at hL
      · simp at hL
      · next hne =>
        have hLe : some ((DIRECTIONS.map (specDirFlips b p coord)).flatten) = some L := by
          simpa using hL
        rw [← Option.some.inj hLe]
        exact Nat.succ_le_of_lt (List.length_pos.mpr hne)
    · simp at hL

/-- Witness for C2: the initial board at coordinate (0, 0) for black. -/
theorem c2_flip_candidates_null_or_nonempty_witness :
    BoardWF initialBoardData ∧ isOnBoard ⟨0, 0⟩ = true ∧
      ((∀ s, cellGet initialBoardData ⟨0, 0⟩ = some s → s ≠ CellState.empty →
          getFlipCandidates initialBoardData ⟨0, 0⟩ Piece.black = Except.ok none)
       ∧ (gatherDirections initialBoardData ⟨0, 0⟩ Piece.black DIRECTIONS = Except.ok [] →
          getFlipCandidates initialBoardData ⟨0, 0⟩ Piece.black = Except.ok none)
       ∧ (∀ L, getFlipCandidates initialBoardData ⟨0, 0⟩ Piece.black = Except.ok (some L) →
          1 ≤ L.length)) :=
  ⟨by decide, by decide,
    c2_flip_candidates_null_or_nonempty initialBoardData ⟨0, 0⟩ Piece.black
      (by decide) (by decide)⟩

/-! Helper lemmas about the player manager. -/

theorem playerOrder_get (i : Nat) (h : i < playerOrder.length) :
    playerOrder.get ⟨i, h⟩ = (if i = 0 then Piece.black else Piece.white) := by
  rcases i with _ | _ | n
  · rfl
  · rfl
  · have h2 : playerOrder.length = 2 := rfl
    rw [h2] at h
    omega

theorem currentPlayerS_eq (st : GameState) :
    currentPlayerS st =
      (if (st.count + st.skipCount) % 2 = 0 then Piece.black else Piece.white) := by
  unfold currentPlayerS
  rw [playerOrder_get]
  rfl

theorem nextPlayerS_eq (st : GameState) :
    nextPlayerS st =
      (if (st.count + 1 + st.skipCount) % 2 = 0 then Piece.black else Piece.white) := by
  unfold nextPlayerS
  rw [playerOrder_get]
  rfl

theorem setPlayerS_eq (st : GameState) (target : Piece) :
    setPlayerS st target =
      { st with skipCount :=
          ((jsIndexOf playerOrder target - (st.count : Int) % 2 + 2) % 2).toNat } := by
  cases target <;> rfl

theorem setPlayerS_count (st : GameState) (target : Piece) :
    (setPlayerS st target).count = st.count := by
  rw [setPlayerS_eq]

theorem setPlayerS_boardData (st : GameState) (target : Piece) :
    (setPlayerS st target).boardData = st.boardData := by
  rw [setPlayerS_eq]

theorem setPlayerS_history (st : GameState) (target : Piece) :
    (setPlayerS st target).history = st.history := by
  rw [setPlayerS_eq]

theorem setPlayerS_skipCount (st : GameState) (target : Piece) :
    ((setPlayerS st target).skipCount : Int) =
      (jsIndexOf playerOrder target - (st.count : Int) % 2 + 2) % 2 := by
  rw [setPlayerS_eq]
  cases target with
  | black =>
    have hidx : jsIndexOf playerOrder Piece.black = 0 := rfl
    rw [hidx]
    simp only []
    omega
  | white =>
    have hidx : jsIndexOf playerOrder Piece.white = 1 := rfl
    rw [hidx]
    simp only []
    omega

theorem currentPlayerS_setPlayerS (st : GameState) (target : Piece) :
    currentPlayerS (setPlayerS st target) = target := by
  rw [currentPlayerS_eq, setPlayerS_eq]
  simp only []
  cases target with
  | black =>
    have hidx : jsIndexOf playerOrder Piece.black = 0 := rfl
    rw [hidx]
    rw [if_pos (by omega)]
  | white =>
    have hidx : jsIndexOf playerOrder Piece.white = 1 := rfl
    rw [hidx]
    rw [if_neg (by omega)]

/-! Helper lemmas about the history controller. -/

theorem pushData_of_le {history : List PlayerAndBoardData} {turn : Int} {player : Piece}
    {bd : BoardData} (h : (history.length : Int) ≤ turn) :
    pushData history turn player bd = history ++ [⟨player, bd⟩] := by
  unfold pushData
  rw [if_neg (by omega)]

theorem getData_of_lt {history : List PlayerAndBoardData} {n : Nat} (h : n < history.length) :
    getData history (n : Int) = history[n]? := by
  unfold getData
  have hb : isData history (n : Int) = true := by
    unfold isData
    rw [if_neg (by omega)]
    simp only [decide_eq_true_eq]
    omega
  rw [if_pos hb]
  unfold listGet?
  rw [if_pos (by omega), Int.toNat_natCast]

theorem loadData_id (bd : BoardData) : loadData bd = bd := by
  simp [loadData]

/-! Helper lemmas for the game-progression controller. -/

theorem handleMove_of_none {st : GameState} {coord : Coordinate}
    (h : getFlipCandidates st.boardData coord (currentPlayerS st) = Except.ok none) :
    handleMove st coord none = Except.ok (st, []) := by
  unfold handleMove
  simp only []
  rw [h]

theorem handleMove_of_some {st : GameState} {coord : Coordinate} {flips : List Coordinate}
    (h : getFlipCandidates st.boardData coord (currentPlayerS st) = Except.ok (some flips)) :
    handleMove st coord none =
      manageGameProgression
        { st with
            boardData :=
              setCell (flipCells st.boardData flips (currentPlayerS st)) coord
                (currentPlayerS st).toCell } := by
  unfold handleMove
  simp only []
  rw [h]

theorem decideProgressionKey_of_usual {st : GameState} {l : List Coordinate}
    (h : getValidMoves st.boardData (nextPlayerS st) = Except.ok l) (hne : l ≠ []) :
    decideProgressionKey st = Except.ok ProgressionKey.usual := by
  unfold decideProgressionKey
  rw [h]
  simp only []
  rw [if_pos (List.length_pos.mpr hne)]

theorem decideProgressionKey_of_skip {st : GameState} {l : List Coordinate}
    (h1 : getValidMoves st.boardData (nextPlayerS st) = Except.ok [])
    (h2 : getValidMoves st.boardData (currentPlayerS st) = Except.ok l) (hne : l ≠ []) :
    decideProgressionKey st = Except.ok ProgressionKey.skip := by
  unfold decideProgressionKey
  rw [h1]
  simp only []
  rw [if_neg (by simp), h2]
  simp only []
  rw [if_pos (List.length_pos.mpr hne)]

theorem decideProgressionKey_of_gameOver {st : GameState}
    (h1 : getValidMoves st.boardData (nextPlayerS st) = Except.ok [])
    (h2 : getValidMoves st.boardData (currentPlayerS st) = Except.ok []) :
    decideProgressionKey st = Except.ok ProgressionKey.gameOver := by
  unfold decideProgressionKey
  rw [h1]
  simp only []
  rw [if_neg (by simp), h2]
  simp only []
  rw [if_neg (by simp)]

theorem manageGameProgression_error {st : GameState} {e : Unit}
    (h : decideProgressionKey st = Except.error e) :
    manageGameProgression st = Except.error e := by
  unfold manageGameProgression
  rw [h]

theorem manageGameProgression_usual {st : GameState}
    (h : decideProgressionKey st = Except.ok ProgressionKey.usual) :
    manageGameProgression st = Except.ok (proceedUsualTurn st) := by
  unfold manageGameProgression
  rw [h]

theorem manageGameProgression_skip {st : GameState}
    (h : decideProgressionKey st = Except.ok ProgressionKey.skip) :
    manageGameProgression st =
      Except.ok
        ((proceedUsualTurn { st with skipCount := st.skipCount + 1 }).1,
          Notification.renderSkip (nextPlayerS st) ::
            (proceedUsualTurn { st with skipCount := st.skipCount + 1 }).2) := by
  unfold manageGameProgression
  rw [h]

theorem manageGameProgression_gameOver {st : GameState}
    (h : decideProgressionKey st = Except.ok ProgressionKey.gameOver) :
    manageGameProgression st =
      Except.ok
        ({ st with
            count := st.count + 1,
            history :=
              pushData st.history ((st.count + 1 : Nat) : Int)
                (currentPlayerS { st with count := st.count + 1 }) st.boardData },
          [Notification.render, Notification.renderResult]) := by
  unfold manageGameProgression
  rw [h]

theorem proceedUsualTurn_eq (st : GameState) :
    proceedUsualTurn st =
      ({ boardData := st.boardData,
         history := pushData st.history ((st.count + 1 : Nat) : Int)
           (currentPlayerS { st with count := st.count + 1 }) st.boardData,
         count := st.count + 1, skipCount := st.skipCount }, [Notification.render]) := rfl

theorem performUndo_some {st : GameState} {d : PlayerAndBoardData}
    (h : getData st.history ((decrementCount st.count : Nat) : Int) = some d) :
    performUndo st =
      (setPlayerS
        { st with count := decrementCount st.count, boardData := loadData d.boardData }
        d.player, true) := by
  unfold performUndo
  simp only []
  rw [h]

theorem performRedo_some {st : GameState} {d : PlayerAndBoardData}
    (h : getData st.history ((st.count + 1 : Nat) : Int) = some d) :
    performRedo st =
      (setPlayerS
        { st with count := st.count + 1, boardData := loadData d.boardData }
        d.player, true) := by
  unfold performRedo
  simp only []
  rw [h]

/-! Occupied cells always yield a null flip list. -/

theorem getCell_of_cellGet {b : BoardData} {coord : Coordinate} {s : CellState}
    (h : cellGet b coord = some s) : getCell b coord = Except.ok (some s) := by
  unfold cellGet at h
  rcases Option.bind_eq_some.mp h with ⟨row, hrow, hc⟩
  unfold getCell
  rw [hrow]
  simp only []
  rw [hc]

theorem getFlipCandidates_occupied {b : BoardData} {coord : Coordinate} {p : Piece}
    {s : CellState} (hs : cellGet b coord = some s) (hne : s ≠ CellState.empty) :
    getFlipCandidates b coord p = Except.ok none := by
  unfold getFlipCandidates
  rw [getCell_of_cellGet hs]
  simp only []
  rw [if_neg (fun hcon => hne (Option.some.inj hcon))]

/-- C3 counterexample: pushing at turn index 1 into an empty history appends
at index 0, so getData 1 is null and the length is 1, not 2 — the claimed
invariant fails whenever the turn index exceeds the current length. -/
theorem c3_counterexample :
    ¬ (getData (pushData [] 1 Piece.black []) 1 = some ⟨Piece.black, []⟩
       ∧ (pushData [] 1 Piece.black []).length = 1 + 1) := by
  decide

/-- C3 amended: for every history state and turn index t with
0 ≤ t ≤ length, after pushData(t, player, board) the call getData(t)
returns exactly the pushed pair and the length equals t + 1. -/
theorem c3_push_then_get_roundtrip (history : List PlayerAndBoardData) (t : Int)
    (player : Piece) (bd : BoardData) (h0 : 0 ≤ t) (hle : t ≤ (history.length : Int)) :
    getData (pushData history t player bd) t = some ⟨player, bd⟩
    ∧ ((pushData history t player bd).length : Int) = t + 1 := by
  obtain ⟨n, rfl⟩ : ∃ n : Nat, (n : Int) = t := ⟨t.toNat, by omega⟩
  have hlen : n ≤ history.length := by exact_mod_cast hle
  have hpush : pushData history (n : Int) player bd =
      (if n < history.length then history.take n else history) ++ [⟨player, bd⟩] := by
    unfold pushData
    by_cases hlt : n < history.length
    · rw [if_pos (by exact_mod_cast hlt), if_pos hlt]
      unfold jsSliceZero
      rw [if_neg (by omega), Int.toNat_natCast]
    · rw [if_neg (by omega), if_neg hlt]
  have hprelen : (if n < history.length then history.take n else history).length = n := by
    by_cases hlt : n < history.length
    · rw [if_pos hlt, List.length_take]
      omega
    · rw [if_neg hlt]
      omega
  constructor
  · have hlt2 : n < (pushData history (n : Int) player bd).length := by
      rw [hpush, List.length_append, hprelen]
      simp
    rw [getData_of_lt hlt2, hpush, List.getElem?_append_right (by omega), hprelen]
    simp
  · rw [hpush, List.length_append, hprelen, List.length_singleton]
    omega

/-- Witness for C3 (amended): pushing at turn 0 into an empty history. -/
theorem c3_push_then_get_roundtrip_witness :
    (0 : Int) ≤ 0 ∧ (0 : Int) ≤ (([] : List PlayerAndBoardData).length : Int)
    ∧ (getData (pushData ([] : List PlayerAndBoardData) 0 Piece.black []) 0 =
        some ⟨Piece.black, []⟩
       ∧ ((pushData ([] : List PlayerAndBoardData) 0 Piece.black []).length : Int) = 0 + 1) :=
  ⟨by decide, by decide, c3_push_then_get_roundtrip [] 0 Piece.black [] (by decide) (by decide)⟩

/-- C5: submitting a move at an occupied coordinate, or at one where
getFlipCandidates returns null, is a no-op failure: the returned state is
the input state unchanged (same board, history, turn counter and skip
count) and no notification is emitted. -/
theorem c5_invalid_move_is_noop (st : GameState) (coord : Coordinate)
    (h : (∃ s, cellGet st.boardData coord = some s ∧ s ≠ CellState.empty) ∨
      getFlipCandidates st.boardData coord (currentPlayerS st) = Except.ok none) :
    handleMove st coord none = Except.ok (st, []) := by
  rcases h with ⟨s, hs, hne⟩ | h
  · exact handleMove_of_none (getFlipCandidates_occupied hs hne)
  · exact handleMove_of_none h

/-- Witness for C5: the occupied center cell (3, 3) of the initial state. -/
theorem c5_invalid_move_is_noop_witness :
    ((∃ s, cellGet initState.boardData ⟨3, 3⟩ = some s ∧ s ≠ CellState.empty) ∨
      getFlipCandidates initState.boardData ⟨3, 3⟩ (currentPlayerS initState) = Except.ok none)
    ∧ handleMove initState ⟨3, 3⟩ none = Except.ok (initState, []) :=
  ⟨Or.inl ⟨CellState.white, by decide, by decide⟩,
    c5_invalid_move_is_noop initState ⟨3, 3⟩ (Or.inl ⟨CellState.white, by decide, by decide⟩)⟩

/-- C7: the current player is the entry of the order [black, white] at index
(turnCount + skipCount) mod 2; setPlayer(target) makes the current player
equal the target without changing the turn count, by setting the skip count
to (index - turnCount mod 2 + 2) mod 2. -/
theorem c7_current_player_formula_and_setPlayer (st : GameState) (target : Piece) :
    currentPlayerS st =
      (if (st.count + st.skipCount) % 2 = 0 then Piece.black else Piece.white)
    ∧ currentPlayerS (setPlayerS st target) = target
    ∧ (setPlayerS st target).count = st.count
    ∧ ((setPlayerS st target).skipCount : Int) =
        (jsIndexOf playerOrder target - (st.count : Int) % 2 + 2) % 2 :=
  ⟨currentPlayerS_eq st, currentPlayerS_setPlayerS st target, setPlayerS_count st target,
    setPlayerS_skipCount st target⟩

/-- C9 counterexample: at (8, 0) the row lookup yields undefined and the
subsequent column access throws a TypeError, so getFlipCandidates propagates
an error instead of returning null. -/
theorem c9_counterexample :
    getFlipCandidates initialBoardData ⟨8, 0⟩ Piece.black = Except.error ()
    ∧ getFlipCandidates initialBoardData ⟨8, 0⟩ Piece.black ≠ Except.ok none := by
  decide

/-- C9 amended: on a well-formed board, a coordinate whose row is in range
but whose column is out of range makes getFlipCandidates return null
without error (the undefined cell is treated as not empty), while a row out
of range makes the cell lookup throw a TypeError (an error, not null). -/
theorem c9_out_of_range_split (b : BoardData) (p : Piece) (r c : Int) (hWF : BoardWF b) :
    ((0 ≤ r ∧ r < 8 ∧ (c < 0 ∨ 8 ≤ c)) → getFlipCandidates b ⟨r, c⟩ p = Except.ok none)
    ∧ ((r < 0 ∨ 8 ≤ r) → getFlipCandidates b ⟨r, c⟩ p = Except.error ()) := by
  constructor
  · rintro ⟨hr0, hr8, hc⟩
    have hrow : ∃ row, listGet? b r = some row :=
      Option.isSome_iff_exists.mp (listGet?_isSome.mpr ⟨hr0, by rw [hWF.1]; omega⟩)
    obtain ⟨row, hrow⟩ := hrow
    have hrl : row.length = 8 := hWF.2 row (listGet?_mem hrow)
    have hcnone : listGet? row c = none := by
      unfold listGet?
      rcases hc with hneg | hge
      · rw [if_neg (by omega)]
      · rw [if_pos (by omega)]
        apply List.getElem?_eq_none
        rw [hrl]
        omega
    unfold getFlipCandidates getCell
    rw [hrow]
    simp only []
    rw [hcnone, if_neg (by simp)]
  · intro hr
    have hrnone : listGet? b r = none := by
      unfold listGet?
      rcases hr with hneg | hge
      · rw [if_neg (by omega)]
      · rw [if_pos (by omega)]
        apply List.getElem?_eq_none
        rw [hWF.1]
        omega
    unfold getFlipCandidates getCell
    rw [hrnone]

/-- Witness for C9 (amended): the initial board at (0, 8) and at (8, 0). -/
theorem c9_out_of_range_split_witness :
    BoardWF initialBoardData
    ∧ getFlipCandidates initialBoardData ⟨0, 8⟩ Piece.black = Except.ok none
    ∧ getFlipCandidates initialBoardData ⟨8, 0⟩ Piece.black = Except.error () :=
  ⟨by decide,
    (c9_out_of_range_split initialBoardData Piece.black 0 8 (by decide)).1 (by decide),
    (c9_out_of_range_split initialBoardData Piece.black 8 0 (by decide)).2 (by decide)⟩

/-- C10: the guarded decrement is a no-op at zero, so a single-step undo at
turn 0 does not fail at the boundary: when history entry 0 exists it is
reloaded, the player is resynchronized from it, the operation reports
success, and the turn count stays 0 with the history untouched. -/
theorem c10_undo_at_turn_zero (st : GameState) (d : PlayerAndBoardData)
    (hcount : st.count = 0) (hdata : getData st.history 0 = some d) :
    decrementCount 0 = 0
    ∧ (performUndo st).2 = true
    ∧ (performUndo st).1.count = 0
    ∧ (performUndo st).1.boardData = d.boardData
    ∧ currentPlayerS (performUndo st).1 = d.player
    ∧ (performUndo st).1.history = st.history := by
  have hdec : decrementCount st.count = 0 := by rw [hcount]; rfl
  have hget : getData st.history ((decrementCount st.count : Nat) : Int) = some d := by
    rw [hdec]
    exact_mod_cast hdata
  have hu := performUndo_some hget
  refine ⟨rfl, ?_, ?_, ?_, ?_, ?_⟩
  · rw [hu]
  · rw [hu, setPlayerS_count]
    simp only []
    exact hdec
  · rw [hu, setPlayerS_boardData]
    simp only []
    exact loadData_id d.boardData
  · rw [hu]
    simp only []
    exact currentPlayerS_setPlayerS _ d.player
  · rw [hu, setPlayerS_history]

/-- Witness for C10: a single-step undo on the freshly initialized game. -/
theorem c10_undo_at_turn_zero_witness :
    initState.count = 0
    ∧ getData initState.history 0 = some ⟨Piece.black, boardInit INITIAL_PIECES⟩
    ∧ (decrementCount 0 = 0
       ∧ (performUndo initState).2 = true
       ∧ (performUndo initState).1.count = 0
       ∧ (performUndo initState).1.boardData =
          (⟨Piece.black, boardInit INITIAL_PIECES⟩ : PlayerAndBoardData).boardData
       ∧ currentPlayerS (performUndo initState).1 =
          (⟨Piece.black, boardInit INITIAL_PIECES⟩ : PlayerAndBoardData).player
       ∧ (performUndo initState).1.history = initState.history) :=
  ⟨by decide, by decide,
    c10_undo_at_turn_zero initState ⟨Piece.black, boardInit INITIAL_PIECES⟩
      (by decide) (by decide)⟩

/-- C8: from the initial position with black to move at turn 0, submitting
black at (2, 3) flips (3, 3) and yields exactly the board with black at
(2, 3), (3, 3), (3, 4), (4, 3) and white at (4, 4), score 4 black to 1
white, turn counter 1 and white as the active player. -/
theorem c8_first_move_scenario :
    getFlipCandidates initState.boardData ⟨2, 3⟩ (currentPlayerS initState) =
      Except.ok (some [⟨3, 3⟩])
    ∧ handleMove initState ⟨2, 3⟩ none =
        Except.ok (stateAfterFirstMove, [Notification.render])
    ∧ score boardAfterFirstMove = (4, 1)
    ∧ stateAfterFirstMove.count = 1
    ∧ currentPlayerS stateAfterFirstMove = Piece.white := by
  decide

/-! Shape of the state produced by resolving a legal move, shared by the
undo/redo and skip claims. -/

theorem progression_shape {st : GameState} {B : BoardData} {res : GameState × List Notification}
    (hInv : st.history.length = st.count + 1)
    (h : manageGameProgression { st with boardData := B } = Except.ok res) :
    res.1.count = st.count + 1
    ∧ res.1.history = st.history ++ [⟨currentPlayerS res.1, res.1.boardData⟩] := by
  cases hkey : decideProgressionKey { st with boardData := B } with
  | error e =>
    rw [manageGameProgression_error hkey] at h
    simp at h
  | ok key =>
    cases key with
    | usual =>
      rw [manageGameProgression_usual hkey] at h
      obtain rfl := (Except.ok.inj h).symm
      refine ⟨rfl, ?_⟩
      show pushData st.history ((st.count + 1 : Nat) : Int)
          (currentPlayerS ⟨B, st.history, st.count + 1, st.skipCount⟩) B =
        st.history ++ [⟨currentPlayerS ⟨B, st.history, st.count + 1, st.skipCount⟩, B⟩]
      exact pushData_of_le (by omega)
    | skip =>
      rw [manageGameProgression_skip hkey] at h
      obtain rfl := (Except.ok.inj h).symm
      refine ⟨rfl, ?_⟩
      show pushData st.history ((st.count + 1 : Nat) : Int)
          (currentPlayerS ⟨B, st.history, st.count + 1, st.skipCount + 1⟩) B =
        st.history ++ [⟨currentPlayerS ⟨B, st.history, st.count + 1, st.skipCount + 1⟩, B⟩]
      exact pushData_of_le (by omega)
    | gameOver =>
      rw [manageGameProgression_gameOver hkey] at h
      obtain rfl := (Except.ok.inj h).symm
      refine ⟨rfl, ?_⟩
      show pushData st.history ((st.count + 1 : Nat) : Int)
          (currentPlayerS ⟨B, st.history, st.count + 1, st.skipCount⟩) B =
        st.history ++ [⟨currentPlayerS ⟨B, st.history, st.count + 1, st.skipCount⟩, B⟩]
      exact pushData_of_le (by omega)

theorem legalStep_spec {st st' : GameState} {coord : Coordinate}
    (hInv : st.history.length = st.count + 1) (h : legalStep st coord = some st') :
    st'.count = st.count + 1
    ∧ st'.history = st.history ++ [⟨currentPlayerS st', st'.boardData⟩] := by
  unfold legalStep at h
  cases hflip : getFlipCandidates st.boardData coord (currentPlayerS st) with
  | error e =>
    rw [hflip] at h
    simp at h
  | ok fc =>
    cases fc with
    | none =>
      rw [hflip] at h
      simp at h
    | some flips =>
      rw [hflip] at h
      simp only [] at h
      rw [handleMove_of_some hflip] at h
      cases hman : manageGameProgression
          { st with
              boardData :=
                setCell (flipCells st.boardData flips (currentPlayerS st)) coord
                  (currentPlayerS st).toCell } with
      | error e =>
        rw [hman] at h
        simp at h
      | ok res =>
        rw [hman] at h
        simp only [] at h
        obtain rfl := Option.some.inj h
        exact progression_shape hInv hman

theorem playMoves_inv_aux : ∀ (ms : List Coordinate) (st st0 : GameState),
    st.history.length = st.count + 1 → playMoves st ms = some st0 →
    st0.history.length = st0.count + 1 := by
  intro ms
  induction ms with
  | nil =>
    intro st st0 hInv h
    unfold playMoves at h
    obtain rfl := Option.some.inj h
    exact hInv
  | cons c rest ih =>
    intro st st0 hInv h
    unfold playMoves at h
    cases hstep : legalStep st c with
    | none =>
      rw [hstep] at h
      simp at h
    | some st1 =>
      rw [hstep] at h
      simp only [] at h
      obtain ⟨hc, hh⟩ := legalStep_spec hInv hstep
      have hInv1 : st1.history.length = st1.count + 1 := by
        rw [hh, List.length_append, List.length_singleton, hInv, hc]
      exact ih st1 st0 hInv1 h

theorem playMoves_inv {ms : List Coordinate} {st0 : GameState}
    (h : playMoves initState ms = some st0) : st0.history.length = st0.count + 1 :=
  playMoves_inv_aux ms initState st0 (by decide) h

/-- C6: after any sequence of legal moves from the initial position followed
by one more legal move, a single undo succeeds, a single redo succeeds, and
the board after the redo is deep-equal to the board immediately after that
move. -/
theorem c6_move_undo_redo_roundtrip (ms : List Coordinate) (st0 st1 : GameState)
    (coord : Coordinate) (hplay : playMoves initState ms = some st0)
    (hstep : legalStep st0 coord = some st1) :
    (performUndo st1).2 = true
    ∧ (performRedo (performUndo st1).1).2 = true
    ∧ (performRedo (performUndo st1).1).1.boardData = st1.boardData := by
  have hInv0 := playMoves_inv hplay
  obtain ⟨hcount, hhist⟩ := legalStep_spec hInv0 hstep
  have hlen1 : st1.history.length = st0.count + 2 := by
    rw [hhist, List.length_append, List.length_singleton, hInv0]
  have hdec : decrementCount st1.count = st0.count := by
    unfold decrementCount
    rw [hcount, if_pos (by omega)]
    omega
  have hd0 : ∃ d0, getData st1.history ((st0.count : Nat) : Int) = some d0 := by
    have hlt : st0.count < st1.history.length := by omega
    rw [getData_of_lt hlt]
    exact ⟨st1.history[st0.count], List.getElem?_eq_some.mpr ⟨hlt, rfl⟩⟩
  obtain ⟨d0, hd0⟩ := hd0
  have hu : performUndo st1 =
      (setPlayerS
        { st1 with count := decrementCount st1.count, boardData := loadData d0.boardData }
        d0.player, true) :=
    performUndo_some (by rw [hdec]; exact hd0)
  have hu2 : (performUndo st1).2 = true := by rw [hu]
  have hucount : (performUndo st1).1.count = st0.count := by
    rw [hu, setPlayerS_count]
    simp only []
    exact hdec
  have huhist : (performUndo st1).1.history = st1.history := by
    rw [hu, setPlayerS_history]
  have hd1 : getData st1.history ((st0.count + 1 : Nat) : Int) =
      some ⟨currentPlayerS st1, st1.boardData⟩ := by
    have hlt : st0.count + 1 < st1.history.length := by omega
    rw [getData_of_lt hlt, hhist, List.getElem?_append_right (by omega)]
    have hz : st0.count + 1 - st0.history.length = 0 := by omega
    rw [hz]
    rfl
  have hr : performRedo (performUndo st1).1 =
      (setPlayerS
        { (performUndo st1).1 with
            count := (performUndo st1).1.count + 1,
            boardData := loadData st1.boardData }
        (currentPlayerS st1), true) :=
    performRedo_some (d := ⟨currentPlayerS st1, st1.boardData⟩) (by
      rw [huhist, hucount]
      exact hd1)
  refine ⟨hu2, ?_, ?_⟩
  · rw [hr]
  · rw [hr, setPlayerS_boardData]
    simp only []
    exact loadData_id st1.boardData

/-- Witness for C6: the empty move sequence followed by black at (2, 3). -/
theorem c6_move_undo_redo_roundtrip_witness :
    playMoves initState [] = some initState
    ∧ legalStep initState ⟨2, 3⟩ = some stateAfterFirstMove
    ∧ ((performUndo stateAfterFirstMove).2 = true
       ∧ (performRedo (performUndo stateAfterFirstMove).1).2 = true
       ∧ (performRedo (performUndo stateAfterFirstMove).1).1.boardData =
          stateAfterFirstMove.boardData) :=
  ⟨rfl, by decide,
    c6_move_undo_redo_roundtrip [] initState stateAfterFirstMove ⟨2, 3⟩ rfl (by decide)⟩

/-- C4 counterexample: in the skip scenario (black plays (0,2), white must
pass, black can still move) the resolved move adds exactly one history entry
(length 1 to 2) and increments the turn counter once, so History is not
pushed a second time for the pass as the claim states. -/
theorem c4_counterexample :
    skipScenarioState.count = 0
    ∧ skipScenarioState.history.length = 1
    ∧ (handleMove skipScenarioState ⟨0, 2⟩ none).toOption.map
        (fun x => (x.1.count, x.1.skipCount, x.1.history.length, x.2)) =
      some (1, 1, 2, [Notification.renderSkip Piece.white, Notification.render])
    ∧ ¬ ((handleMove skipScenarioState ⟨0, 2⟩ none).toOption.map
          (fun x => x.1.history.length) = some (skipScenarioState.history.length + 2)) := by
  decide

/-- C4 amended: when a legal move is resolved, the next player has no legal
move and the mover still has one, the controller takes the skip path: it
emits the pass notification for the skipped player before the usual render,
advances the player tracker a second time by incrementing the skip offset,
increments the turn counter once and pushes exactly one new history entry
(the resolved move snapshot; the pass gets no entry of its own), and the
current player afterwards equals the player who just moved. -/
theorem c4_skip_path (st : GameState) (coord : Coordinate) (flips l : List Coordinate)
    (hInv : st.history.length = st.count + 1)
    (hflip : getFlipCandidates st.boardData coord (currentPlayerS st) = Except.ok (some flips))
    (hnext : getValidMoves
        (setCell (flipCells st.boardData flips (currentPlayerS st)) coord
          (currentPlayerS st).toCell) (nextPlayerS st) = Except.ok [])
    (hcur : getValidMoves
        (setCell (flipCells st.boardData flips (currentPlayerS st)) coord
          (currentPlayerS st).toCell) (currentPlayerS st) = Except.ok l)
    (hne : l ≠ []) :
    ∃ st2, handleMove st coord none =
        Except.ok (st2, [Notification.renderSkip (nextPlayerS st), Notification.render])
      ∧ st2.boardData =
          setCell (flipCells st.boardData flips (currentPlayerS st)) coord
            (currentPlayerS st).toCell
      ∧ st2.count = st.count + 1
      ∧ st2.skipCount = st.skipCount + 1
      ∧ st2.history = st.history ++ [⟨currentPlayerS st, st2.boardData⟩]
      ∧ currentPlayerS st2 = currentPlayerS st := by
  have hkey : decideProgressionKey
      { st with
          boardData :=
            setCell (flipCells st.boardData flips (currentPlayerS st)) coord
              (currentPlayerS st).toCell } = Except.ok ProgressionKey.skip :=
    decideProgressionKey_of_skip hnext hcur hne
  have hp : currentPlayerS
      (⟨setCell (flipCells st.boardData flips (currentPlayerS st)) coord
          (currentPlayerS st).toCell, st.history, st.count + 1, st.skipCount + 1⟩ : GameState) =
      currentPlayerS st := by
    rw [currentPlayerS_eq, currentPlayerS_eq]
    simp only []
    have hmod : (st.count + 1 + (st.skipCount + 1)) % 2 = (st.count + st.skipCount) % 2 := by
      omega
    rw [hmod]
  refine ⟨⟨setCell (flipCells st.boardData flips (currentPlayerS st)) coord
      (currentPlayerS st).toCell,
    pushData st.history ((st.count + 1 : Nat) : Int)
      (currentPlayerS
        (⟨setCell (flipCells st.boardData flips (currentPlayerS st)) coord
            (currentPlayerS st).toCell, st.history, st.count + 1, st.skipCount + 1⟩ : GameState))
      (setCell (flipCells st.boardData flips (currentPlayerS st)) coord
        (currentPlayerS st).toCell),
    st.count + 1, st.skipCount + 1⟩, ?_, rfl, rfl, rfl, ?_, ?_⟩
  · rw [handleMove_of_some hflip, manageGameProgression_skip hkey]
    rfl
  · show pushData st.history ((st.count + 1 : Nat) : Int)
        (currentPlayerS
          (⟨setCell (flipCells st.boardData flips (currentPlayerS st)) coord
              (currentPlayerS st).toCell, st.history, st.count + 1, st.skipCount + 1⟩ :
            GameState))
        (setCell (flipCells st.boardData flips (currentPlayerS st)) coord
          (currentPlayerS st).toCell) =
      st.history ++
        [⟨currentPlayerS st,
          setCell (flipCells st.boardData flips (currentPlayerS st)) coord
            (currentPlayerS st).toCell⟩]
    rw [pushData_of_le (by omega), hp]
  · exact hp

/-- Witness for C4 (amended): the skip scenario with black playing (0, 2). -/
theorem c4_skip_path_witness :
    skipScenarioState.history.length = skipScenarioState.count + 1
    ∧ getFlipCandidates skipScenarioState.boardData ⟨0, 2⟩ (currentPlayerS skipScenarioState) =
        Except.ok (some [⟨0, 1⟩])
    ∧ getValidMoves
        (setCell
          (flipCells skipScenarioState.boardData [⟨0, 1⟩] (currentPlayerS skipScenarioState))
          ⟨0, 2⟩ (currentPlayerS skipScenarioState).toCell)
        (nextPlayerS skipScenarioState) = Except.ok []
    ∧ getValidMoves
        (setCell
          (flipCells skipScenarioState.boardData [⟨0, 1⟩] (currentPlayerS skipScenarioState))
          ⟨0, 2⟩ (currentPlayerS skipScenarioState).toCell)
        (currentPlayerS skipScenarioState) = Except.ok [⟨2, 2⟩]
    ∧ ([⟨2, 2⟩] : List Coordinate) ≠ []
    ∧ (∃ st2, handleMove skipScenarioState ⟨0, 2⟩ none =
          Except.ok
            (st2, [Notification.renderSkip (nextPlayerS skipScenarioState),
              Notification.render])
        ∧ st2.boardData =
            setCell
              (flipCells skipScenarioState.boardData [⟨0, 1⟩]
                (currentPlayerS skipScenarioState))
              ⟨0, 2⟩ (currentPlayerS skipScenarioState).toCell
        ∧ st2.count = skipScenarioState.count + 1
        ∧ st2.skipCount = skipScenarioState.skipCount + 1
        ∧ st2.history = skipScenarioState.history ++
            [⟨currentPlayerS skipScenarioState, st2.boardData⟩]
        ∧ currentPlayerS st2 = currentPlayerS skipScenarioState) :=
  ⟨by decide, by decide, by decide, by decide, by decide,
    c4_skip_path skipScenarioState ⟨0, 2⟩ [⟨0, 1⟩] [⟨2, 2⟩] (by decide) (by decide)
      (by decide) (by decide) (by decide)⟩

end Othello
